import Mathlib

/-!
# Portainer client wrapper: client factory and proxy forwarder

A shallow embedding of `src/client/client.go` and `src/client/proxy.go`.

Go `string` values are embedded as Lean `String` (a Go string holds the UTF-8
bytes of its characters); Go `int` as `Int`; a Go `(value, error)` result as a
pair of options or as `Except`. A Go `map[string]string` is embedded as the
list of its entries in the order one `range` loop visits them (the keys of a Go
map are distinct; the order is unspecified), wrapped in `Option` where the code
tests for `nil`. The effect of a proxy call, handing a request to the HTTP
client, is recorded in the list `Outcome.sent`.

The functions of the Go standard library that the two files call are
embedded as follows.
* `fmt.Sprintf`, `fmt.Errorf` with `%w`, `http.Header.Set` (with
  `textproto.CanonicalMIMEHeaderKey`), `url.Values.Set`,
  `url.Values.Encode`, `url.QueryEscape` and the method check of
  `http.NewRequest`: executable definitions that follow the library.
* `url.Parse`, the tokenising half of `url.ParseQuery`, `strconv.Quote`
  and `http.Client.Do` (the network): fields of `GoStd`, over which every
  theorem is universally quantified.
-/

namespace Portainer

/-! ## Go errors -/

/-- A Go `error` value: either a plain error carrying its message, or the
result of `fmt.Errorf` with one `%w` verb, which carries the formatted
message and the wrapped cause. -/
inductive GoError where
  | plain (msg : String)
  | wrapped (msg : String) (cause : GoError)
deriving DecidableEq, Repr

/-- The method `Error()` of a Go error. -/
def GoError.Error : GoError → String
  | .plain msg => msg
  | .wrapped msg _ => msg

/-- The method `Unwrap()` (`errors.Unwrap`): the cause of a wrapping error,
`nil` for a plain error. -/
def GoError.Unwrap : GoError → Option GoError
  | .plain _ => none
  | .wrapped _ cause => some cause

/-- The call `fmt.Errorf(pfx + "%w", err)`: the message is the text before
the verb followed by `err.Error()`, and `Unwrap` gives back `err`. -/
def Errorf (pfx : String) (err : GoError) : GoError :=
  .wrapped (pfx ++ err.Error) err

/-! ## Maps of the standard library: `url.Values` and `http.Header` -/

/-- A Go `map[string][]string`, as the list of its entries. -/
abbrev MultiMap := List (String × List String)

/-- The keys of the map. -/
def MultiMap.keys (m : MultiMap) : List String := m.map Prod.fst

/-- The index expression `m[k]`: the stored slice, `nil` for an absent key. -/
def MultiMap.get (m : MultiMap) (k : String) : List String :=
  (m.lookup k).getD []

/-- The assignment `m[k] = vs`: any entry for `k` is replaced. -/
def MultiMap.assign (m : MultiMap) (k : String) (vs : List String) : MultiMap :=
  (k, vs) :: m.filter (fun e => e.1 ≠ k)

/-- Bytewise comparison of two strings (`a <= b` in Go), on the list of
characters: Lean strings are sequences of Unicode scalar values, and on
valid UTF-8 the bytewise order is the order by scalar value. -/
def leChars : List Char → List Char → Bool
  | [], _ => true
  | _ :: _, [] => false
  | a :: as, b :: bs =>
    if a.toNat < b.toNat then true
    else if b.toNat < a.toNat then false
    else leChars as bs

/-- The order `slices.Sort` uses on strings. -/
def KeyLE (a b : String) : Prop := leChars a.data b.data = true

instance : DecidableRel KeyLE := fun a b =>
  inferInstanceAs (Decidable (leChars a.data b.data = true))

/-- The call `slices.Sort(keys)`. -/
def sortKeys (keys : List String) : List String :=
  keys.insertionSort KeyLE

/-- The digits `"0123456789ABCDEF"[n]` of `url.escape`. -/
def upperhex (n : Nat) : Char :=
  if n < 10 then Char.ofNat (48 + n) else Char.ofNat (55 + n)

/-- The function `shouldEscape(c, encodeQueryComponent)` on a byte `c`:
ASCII letters, digits and `-`, `_`, `.`, `~` are kept, every other byte is
escaped. -/
def shouldEscape (c : Nat) : Bool :=
  !((97 ≤ c && c ≤ 122) || (65 ≤ c && c ≤ 90) || (48 ≤ c && c ≤ 57)
    || c = 45 || c = 95 || c = 46 || c = 126)

/-- One byte of `url.escape` in mode `encodeQueryComponent`: a space becomes
`+`, an escaped byte becomes `%` and two upper-case hexadecimal digits. -/
def escapeByte (c : Nat) : List Char :=
  if c = 32 then ['+']
  else if shouldEscape c then ['%', upperhex (c / 16), upperhex (c % 16)]
  else [Char.ofNat c]

/-- The UTF-8 encoding of the scalar value `v`: the bytes that a Go string
holds for that character. -/
def utf8Bytes (v : Nat) : List Nat :=
  if v < 0x80 then [v]
  else if v < 0x800 then [0xC0 + v / 0x40, 0x80 + v % 0x40]
  else if v < 0x10000 then [0xE0 + v / 0x1000, 0x80 + v / 0x40 % 0x40, 0x80 + v % 0x40]
  else [0xF0 + v / 0x40000, 0x80 + v / 0x1000 % 0x40, 0x80 + v / 0x40 % 0x40,
    0x80 + v % 0x40]

/-- The bytes of a Go string. -/
def bytesOf (s : String) : List Nat :=
  s.data.flatMap (fun c => utf8Bytes c.toNat)

/-- The function `url.QueryEscape`: every byte of `s` is escaped in turn. -/
def QueryEscape (s : String) : String :=
  ⟨(bytesOf s).flatMap escapeByte⟩

/-- The type `url.Values`. -/
structure Values where
  m : MultiMap
deriving DecidableEq, Repr

/-- The method `Values.Set`: `v[key] = []string{value}`. -/
def Values.Set (v : Values) (key value : String) : Values :=
  ⟨v.m.assign key [value]⟩

/-- The method `Values.Add`: `v[key] = append(v[key], value)`. -/
def Values.Add (v : Values) (key value : String) : Values :=
  ⟨v.m.assign key (v.m.get key ++ [value])⟩

/-- The key/value pairs in the order `Values.Encode` writes them: the keys
sorted, and under each key its values in slice order. -/
def Values.pairs (v : Values) : List (String × String) :=
  (sortKeys v.m.keys).flatMap (fun k => (v.m.get k).map (fun val => (k, val)))

/-- One `key=value` field of an encoded query. -/
def encodeField (kv : String × String) : String :=
  QueryEscape kv.1 ++ "=" ++ QueryEscape kv.2

/-- The method `Values.Encode`: the fields `QueryEscape(k)=QueryEscape(v)`
joined by `&`, sorted by key. -/
def Values.Encode (v : Values) : String :=
  "&".intercalate (v.pairs.map encodeField)

/-- The bytes allowed in a header field name or a method token
(`httpguts.IsTokenRune`, `textproto.validHeaderFieldByte`). -/
def isToken (c : Char) : Bool :=
  let n := c.toNat
  (97 ≤ n && n ≤ 122) || (65 ≤ n && n ≤ 90) || (48 ≤ n && n ≤ 57)
    || [33, 35, 36, 37, 38, 39, 42, 43, 45, 46, 94, 95, 96, 124, 126].contains n

/-- The loop of `textproto.canonicalMIMEHeaderKey`: upper case for the first
letter and for a letter after a dash, lower case elsewhere. -/
def canonLoop : Bool → List Char → List Char
  | _, [] => []
  | upper, c :: cs =>
    let n := c.toNat
    let d : Char :=
      if upper && (97 ≤ n && n ≤ 122) then Char.ofNat (n - 32)
      else if !upper && (65 ≤ n && n ≤ 90) then Char.ofNat (n + 32)
      else c
    d :: canonLoop (d = '-') cs

/-- The function `textproto.CanonicalMIMEHeaderKey`: a key made of token
bytes only is canonicalised, any other key is returned unchanged. -/
def CanonicalMIMEHeaderKey (s : String) : String :=
  if s.data.all isToken then ⟨canonLoop true s.data⟩ else s

/-- The type `http.Header`. -/
structure Header where
  m : MultiMap
deriving DecidableEq, Repr

/-- The method `Header.Set`: the key is canonicalised, the entry replaced. -/
def Header.Set (h : Header) (key value : String) : Header :=
  ⟨h.m.assign (CanonicalMIMEHeaderKey key) [value]⟩

/-- The method `Header.Values`: all values stored under the canonical key. -/
def Header.Values (h : Header) (key : String) : List String :=
  h.m.get (CanonicalMIMEHeaderKey key)

/-- The method `Header.Get`: the first value under the canonical key, or
the empty string. -/
def Header.Get (h : Header) (key : String) : String :=
  (h.Values key).headD ""

/-! ## Requests, responses and the library functions taken as parameters -/

/-- An `io.Reader`: the bytes still to be read from it. -/
abbrev Reader := List Nat

/-- The type `url.URL`. -/
structure URL where
  Scheme : String
  Opaque : String
  User : String
  Host : String
  Path : String
  RawPath : String
  ForceQuery : Bool
  RawQuery : String
  Fragment : String
  RawFragment : String
deriving DecidableEq, Repr

/-- The fields of `http.Request` that `http.NewRequest` fills in from its
arguments. -/
structure Request where
  Method : String
  URL : URL
  Header : Header
  Body : Option Reader
  Host : String
deriving DecidableEq, Repr

/-- The type `http.Response`. -/
structure Response where
  StatusCode : Int
  Header : Header
  Body : Reader
deriving DecidableEq, Repr

/-- The type `tls.Config`, with the one field the client sets. -/
structure TLSConfig where
  InsecureSkipVerify : Bool
deriving DecidableEq, Repr

/-- The type `http.Transport`, with the one field the client sets. -/
structure HTTPTransport where
  TLSClientConfig : TLSConfig
deriving DecidableEq, Repr

/-- The type `http.Client`, with the one field the client sets. -/
structure HTTPClient where
  Transport : HTTPTransport
deriving DecidableEq, Repr

/-- The library functions whose behaviour is left open.
* `Parse` is `url.Parse`.
* `Quote` is `strconv.Quote`, the verb `%q`.
* `queryFields` is the tokenising half of `url.ParseQuery`: the unescaped
  `key`, `value` fields of a raw query, in order, without the fields the
  parser skips.
* `Do` is `(*http.Client).Do`, the network round trip, with its two results. -/
structure GoStd where
  Parse : String → Except GoError URL
  Quote : String → String
  queryFields : String → List (String × String)
  Do : HTTPClient → Request → Option Response × Option GoError

/-- The function `strings.LastIndex(s, c)` for a one-byte `c`: the position
of the last occurrence, `-1` when there is none. -/
def lastIndex (s : List Char) (c : Char) : Int :=
  let i := s.reverse.indexOf c
  if i < s.length then (s.length : Int) - 1 - i else -1

/-- The function `http.removeEmptyPort`: a trailing `:` of a host that has a
port separator is dropped. -/
def removeEmptyPort (host : String) : String :=
  if lastIndex host.data ':' > lastIndex host.data ']' then
    (if host.data.getLast? = some ':' then ⟨host.data.dropLast⟩ else host)
  else host

/-- The function `http.validMethod`: a non-empty sequence of token bytes. -/
def validMethod (method : String) : Bool :=
  !method.data.isEmpty && method.data.all isToken

/-- The function `http.NewRequest(method, url, body)`: an empty method means
`GET`, a method that is not a token is rejected, the URL is parsed, and the
request starts with an empty header. -/
def NewRequest (std : GoStd) (method url : String) (body : Option Reader) :
    Except GoError Request :=
  let method := if method = "" then "GET" else method
  if !validMethod method then
    .error (.plain ("net/http: invalid method " ++ std.Quote method))
  else
    match std.Parse url with
    | .error err => .error err
    | .ok u =>
      let u := { u with Host := removeEmptyPort u.Host }
      .ok { Method := method, URL := u, Header := ⟨[]⟩, Body := body, Host := u.Host }

/-- The function `url.ParseQuery`, its error dropped: an empty query has no
field, and every accepted field is appended under its key. -/
def ParseQuery (std : GoStd) (query : String) : Values :=
  (if query = "" then [] else std.queryFields query).foldl
    (fun v kv => v.Add kv.1 kv.2) ⟨[]⟩

/-- The method `URL.Query`. -/
def URL.Query (std : GoStd) (u : URL) : Values :=
  ParseQuery std u.RawQuery

/-! ## `client.go` -/

/-- The typed transport: the arguments given to `httptransport.New`, the
replacement `Transport` (absent when the default one is kept), and the header
that `DefaultAuthentication` writes on every typed request. -/
structure Runtime where
  Host : String
  BasePath : String
  Schemes : List String
  Transport : Option HTTPTransport
  DefaultAuthentication : String × String
deriving DecidableEq, Repr

/-- The struct `ProxyClient`. -/
structure ProxyClient where
  cli : HTTPClient
  host : String
  token : String
  basePath : String
  scheme : String
deriving DecidableEq, Repr

/-- The struct `PortainerClient`. -/
structure PortainerClient where
  cli : Runtime
  proxyCli : ProxyClient
deriving DecidableEq, Repr

/-- The struct `clientOptions`. -/
structure clientOptions where
  host : String
  basePath : String
  scheme : String
  apiKey : String
  skipTLSVerify : Bool
deriving DecidableEq, Repr

/-- The type `ClientOption`, a `func(*clientOptions)`: the update it makes. -/
abbrev ClientOption := clientOptions → clientOptions

/-- The option `WithBasePath`. -/
def WithBasePath (basePath : String) : ClientOption :=
  fun o => { o with basePath := basePath }

/-- The option `WithScheme`. -/
def WithScheme (scheme : String) : ClientOption :=
  fun o => { o with scheme := scheme }

/-- The option `WithSkipTLSVerify`. -/
def WithSkipTLSVerify (skip : Bool) : ClientOption :=
  fun o => { o with skipTLSVerify := skip }

/-- The options record of `NewPortainerClient` after the loop over `opts`. -/
def resolveOptions (host apiKey : String) (opts : List ClientOption) : clientOptions :=
  opts.foldl (fun o opt => opt o)
    { host := host, apiKey := apiKey, basePath := "/api", scheme := "https",
      skipTLSVerify := false }

/-- The function `NewPortainerClient`. -/
def NewPortainerClient (host apiKey : String) (opts : List ClientOption) : PortainerClient :=
  let options := resolveOptions host apiKey opts
  { cli :=
      { Host := options.host
        BasePath := options.basePath
        Schemes := [options.scheme]
        Transport :=
          if options.skipTLSVerify then some ⟨⟨true⟩⟩ else none
        DefaultAuthentication := ("x-api-key", options.apiKey) }
    proxyCli :=
      { cli := ⟨⟨⟨options.skipTLSVerify⟩⟩⟩
        host := options.host
        token := options.apiKey
        basePath := options.basePath
        scheme := options.scheme } }

/-! ## `proxy.go` -/

/-- The struct `ProxyRequestOptions`; a `nil` map or body is `none`. -/
structure ProxyRequestOptions where
  Method : String
  APIPath : String
  QueryParams : Option (List (String × String))
  Headers : Option (List (String × String))
  Body : Option Reader
deriving DecidableEq, Repr

/-- What one proxy call does: its two results, and the requests it handed to
the HTTP client, in order. -/
structure Outcome where
  resp : Option Response
  err : Option GoError
  sent : List Request
deriving DecidableEq, Repr

/-- The entries a `range` loop visits; none for a `nil` map. -/
def rangeOf (m : Option (List (String × String))) : List (String × String) :=
  m.getD []

/-- Lines 59 to 73 of `proxyRequest`: the query parameters, the `x-api-key`
header, then the caller's headers. -/
def prepare (std : GoStd) (c : PortainerClient) (opts : ProxyRequestOptions)
    (req : Request) : Request :=
  let req : Request :=
    match opts.QueryParams with
    | none => req
    | some params =>
      let q := params.foldl (fun q kv => q.Set kv.1 kv.2) (req.URL.Query std)
      { req with URL := { req.URL with RawQuery := q.Encode } }
  let req : Request := { req with Header := req.Header.Set "x-api-key" c.proxyCli.token }
  { req with
    Header := (rangeOf opts.Headers).foldl (fun h kv => h.Set kv.1 kv.2) req.Header }

/-- The method `proxyRequest`. -/
def proxyRequest (std : GoStd) (c : PortainerClient) (baseURL : String)
    (opts : ProxyRequestOptions) : Outcome :=
  match NewRequest std opts.Method baseURL opts.Body with
  | .error err =>
    { resp := none, err := some (Errorf "failed to create proxy request: " err), sent := [] }
  | .ok req =>
    let req := prepare std c opts req
    match std.Do c.proxyCli.cli req with
    | (_, some err) =>
      { resp := none, err := some (Errorf "failed to send proxy request: " err), sent := [req] }
    | (resp, none) =>
      { resp := resp, err := none, sent := [req] }

/-- The method `ProxyDockerRequest`; the URL is
`fmt.Sprintf("%s://%s%s/endpoints/%d/docker%s", ...)`. -/
def ProxyDockerRequest (std : GoStd) (c : PortainerClient) (environmentId : Int)
    (opts : ProxyRequestOptions) : Outcome :=
  let baseURL := c.proxyCli.scheme ++ "://" ++ c.proxyCli.host ++ c.proxyCli.basePath
    ++ "/endpoints/" ++ toString environmentId ++ "/docker" ++ opts.APIPath
  proxyRequest std c baseURL opts

/-- The method `ProxyKubernetesRequest`; the URL is
`fmt.Sprintf("%s://%s%s/endpoints/%d/kubernetes%s", ...)`. -/
def ProxyKubernetesRequest (std : GoStd) (c : PortainerClient) (environmentId : Int)
    (opts : ProxyRequestOptions) : Outcome :=
  let baseURL := c.proxyCli.scheme ++ "://" ++ c.proxyCli.host ++ c.proxyCli.basePath
    ++ "/endpoints/" ++ toString environmentId ++ "/kubernetes" ++ opts.APIPath
  proxyRequest std c baseURL opts

/-! ## Reading of the option claims -/

/-- One call of `WithBasePath`, `WithScheme` or `WithSkipTLSVerify`, as the
caller writes it. -/
inductive OptionCall where
  | basePath (v : String)
  | scheme (v : String)
  | skipTLSVerify (v : Bool)
deriving DecidableEq, Repr

/-- The `ClientOption` a call evaluates to. -/
def OptionCall.toOption : OptionCall → ClientOption
  | .basePath v => WithBasePath v
  | .scheme v => WithScheme v
  | .skipTLSVerify v => WithSkipTLSVerify v

/-- The value of the last `WithBasePath` call in the sequence, if any. -/
def lastBasePath (calls : List OptionCall) : Option String :=
  (calls.filterMap (fun | .basePath v => some v | _ => none)).getLast?

/-- The value of the last `WithScheme` call in the sequence, if any. -/
def lastScheme (calls : List OptionCall) : Option String :=
  (calls.filterMap (fun | .scheme v => some v | _ => none)).getLast?

/-- The value of the last `WithSkipTLSVerify` call in the sequence, if any. -/
def lastSkipTLSVerify (calls : List OptionCall) : Option Bool :=
  (calls.filterMap (fun | .skipTLSVerify v => some v | _ => none)).getLast?

/-! ## A small instance of the library, for evaluating the code -/

/-- The function `strings.Cut(s, c)` for a one-byte separator. -/
def cutAt (c : Char) (s : List Char) : List Char × List Char :=
  (s.takeWhile (· ≠ c), (s.dropWhile (· ≠ c)).drop 1)

/-- The function `strings.Split(s, c)` for a one-byte separator. -/
def splitAt (c : Char) : List Char → List (List Char)
  | [] => [[]]
  | x :: xs =>
    if x = c then [] :: splitAt c xs
    else
      match splitAt c xs with
      | [] => [[x]]
      | h :: t => (x :: h) :: t

/-- What `url.Parse` returns on `scheme://host/path?query#fragment` when no
part needs unescaping. -/
def plainParse (raw : String) : Except GoError URL :=
  let (rest, frag) := cutAt '#' raw.data
  let (rest, query) := cutAt '?' rest
  let (scheme, rest) := cutAt ':' rest
  let rest := rest.drop 2
  .ok { Scheme := ⟨scheme⟩, Opaque := "", User := "", Host := ⟨rest.takeWhile (· ≠ '/')⟩,
        Path := ⟨rest.dropWhile (· ≠ '/')⟩, RawPath := "", ForceQuery := false,
        RawQuery := ⟨query⟩, Fragment := ⟨frag⟩, RawFragment := "" }

/-- What `url.ParseQuery` reads from a raw query whose fields need no
unescaping. -/
def plainQueryFields (query : String) : List (String × String) :=
  ((splitAt '&' query.data).filter (fun f => !f.isEmpty)).map
    (fun f => (⟨(cutAt '=' f).1⟩, ⟨(cutAt '=' f).2⟩))

/-- A library whose server answers every request with status `status`. -/
def answering (status : Int) : GoStd where
  Parse := plainParse
  Quote := fun s => "\"" ++ s ++ "\""
  queryFields := plainQueryFields
  Do := fun _ _ => (some { StatusCode := status, Header := ⟨[]⟩, Body := [] }, none)

/-- A library whose network fails every request with the error `cause`. -/
def failing (cause : GoError) : GoStd where
  Parse := plainParse
  Quote := fun s => "\"" ++ s ++ "\""
  queryFields := plainQueryFields
  Do := fun _ _ => (none, some cause)


/-! ## The client factory -/

/-- Folding a sequence of option calls over an options record: host and API
key are kept, and every other field holds the value of the last call that
sets it, or the starting value when no call does. -/
theorem foldl_calls (calls : List OptionCall) (o : clientOptions) :
    ((calls.map OptionCall.toOption).foldl (fun o opt => opt o) o).host = o.host ∧
    ((calls.map OptionCall.toOption).foldl (fun o opt => opt o) o).apiKey = o.apiKey ∧
    ((calls.map OptionCall.toOption).foldl (fun o opt => opt o) o).basePath
      = (lastBasePath calls).getD o.basePath ∧
    ((calls.map OptionCall.toOption).foldl (fun o opt => opt o) o).scheme
      = (lastScheme calls).getD o.scheme ∧
    ((calls.map OptionCall.toOption).foldl (fun o opt => opt o) o).skipTLSVerify
      = (lastSkipTLSVerify calls).getD o.skipTLSVerify := by
  induction calls using List.reverseRecOn with
  | nil => simp [lastBasePath, lastScheme, lastSkipTLSVerify]
  | append_singleton l a ih =>
    obtain ⟨h1, h2, h3, h4, h5⟩ := ih
    simp only [List.map_append, List.map_cons, List.map_nil, List.foldl_append,
      List.foldl_cons, List.foldl_nil, lastBasePath, lastScheme, lastSkipTLSVerify,
      List.filterMap_append, List.getLast?_append] at *
    cases a <;>
      simp [OptionCall.toOption, WithBasePath, WithScheme, WithSkipTLSVerify, h1, h2, h3, h4, h5]

/-- The options record of `NewPortainerClient` for a sequence of calls. -/
theorem resolveOptions_calls (host apiKey : String) (calls : List OptionCall) :
    resolveOptions host apiKey (calls.map OptionCall.toOption) =
      { host := host, apiKey := apiKey,
        basePath := (lastBasePath calls).getD "/api",
        scheme := (lastScheme calls).getD "https",
        skipTLSVerify := (lastSkipTLSVerify calls).getD false } := by
  have h := foldl_calls calls
    { host := host, apiKey := apiKey, basePath := "/api", scheme := "https",
      skipTLSVerify := false }
  obtain ⟨h1, h2, h3, h4, h5⟩ := h
  unfold resolveOptions
  generalize (calls.map OptionCall.toOption).foldl (fun o opt => opt o) _ = r at *
  cases r
  simp_all

/-- The token of the proxy client is the API key given to the factory. -/
theorem options_token (host apiKey : String) (calls : List OptionCall) :
    (NewPortainerClient host apiKey (calls.map OptionCall.toOption)).proxyCli.token
      = apiKey := by
  simp only [NewPortainerClient, resolveOptions_calls]

/-- C4: for every sequence of option calls, base path, scheme and
skip-TLS-verify of the client (proxy side and typed side) hold the value of the
last call that sets that field, the default when there is none; host and API
key are the arguments; each option changes its own field only; and
`WithScheme("http")` then `WithScheme("https")` gives `"https"`. -/
theorem options_last_call_wins (host apiKey : String) (calls : List OptionCall) :
    (NewPortainerClient host apiKey (calls.map OptionCall.toOption)).proxyCli.basePath
      = (lastBasePath calls).getD "/api" ∧
    (NewPortainerClient host apiKey (calls.map OptionCall.toOption)).proxyCli.scheme
      = (lastScheme calls).getD "https" ∧
    (NewPortainerClient host apiKey
        (calls.map OptionCall.toOption)).proxyCli.cli.Transport.TLSClientConfig.InsecureSkipVerify
      = (lastSkipTLSVerify calls).getD false ∧
    (NewPortainerClient host apiKey (calls.map OptionCall.toOption)).cli.BasePath
      = (lastBasePath calls).getD "/api" ∧
    (NewPortainerClient host apiKey (calls.map OptionCall.toOption)).cli.Schemes
      = [(lastScheme calls).getD "https"] ∧
    (NewPortainerClient host apiKey (calls.map OptionCall.toOption)).proxyCli.host = host ∧
    (NewPortainerClient host apiKey (calls.map OptionCall.toOption)).proxyCli.token = apiKey ∧
    (∀ (v : String) (o : clientOptions),
      WithBasePath v o = { o with basePath := v } ∧ WithScheme v o = { o with scheme := v }) ∧
    (∀ (v : Bool) (o : clientOptions), WithSkipTLSVerify v o = { o with skipTLSVerify := v }) ∧
    (NewPortainerClient host apiKey [WithScheme "http", WithScheme "https"]).proxyCli.scheme
      = "https" := by
  simp only [NewPortainerClient, resolveOptions_calls]
  refine ⟨trivial, trivial, trivial, trivial, trivial, trivial, trivial, ?_, ?_, ?_⟩
  · intro v o; exact ⟨rfl, rfl⟩
  · intro v o; rfl
  · rfl

/-- C5: with no options the proxy configuration has base path `/api`, scheme
`https` and certificate verification on, with the given host and token; and
after any sequence of option calls, host and token are the given ones and a
field that no call sets has its default. -/
theorem defaults_without_options (host apiKey : String) (calls : List OptionCall) :
    (NewPortainerClient host apiKey []).proxyCli =
      { cli := ⟨⟨⟨false⟩⟩⟩, host := host, token := apiKey, basePath := "/api",
        scheme := "https" } ∧
    (NewPortainerClient host apiKey (calls.map OptionCall.toOption)).proxyCli.host = host ∧
    (NewPortainerClient host apiKey (calls.map OptionCall.toOption)).proxyCli.token = apiKey ∧
    ((∀ v, OptionCall.basePath v ∉ calls) →
      (NewPortainerClient host apiKey (calls.map OptionCall.toOption)).proxyCli.basePath
        = "/api") ∧
    ((∀ v, OptionCall.scheme v ∉ calls) →
      (NewPortainerClient host apiKey (calls.map OptionCall.toOption)).proxyCli.scheme
        = "https") ∧
    ((∀ v, OptionCall.skipTLSVerify v ∉ calls) →
      (NewPortainerClient host apiKey
        (calls.map OptionCall.toOption)).proxyCli.cli.Transport.TLSClientConfig.InsecureSkipVerify
        = false) := by
  simp only [NewPortainerClient, resolveOptions_calls]
  refine ⟨rfl, trivial, trivial, ?_, ?_, ?_⟩
  · intro h
    have : calls.filterMap (fun | .basePath v => some v | _ => none) = [] := by
      rw [List.filterMap_eq_nil_iff]
      intro a ha
      cases a with
      | basePath v => exact absurd ha (h v)
      | scheme v => rfl
      | skipTLSVerify v => rfl
    simp [lastBasePath, this]
  · intro h
    have : calls.filterMap (fun | .scheme v => some v | _ => none) = [] := by
      rw [List.filterMap_eq_nil_iff]
      intro a ha
      cases a with
      | basePath v => rfl
      | scheme v => exact absurd ha (h v)
      | skipTLSVerify v => rfl
    simp [lastScheme, this]
  · intro h
    have : calls.filterMap (fun | .skipTLSVerify v => some v | _ => none) = [] := by
      rw [List.filterMap_eq_nil_iff]
      intro a ha
      cases a with
      | basePath v => rfl
      | scheme v => rfl
      | skipTLSVerify v => exact absurd ha (h v)
    simp [lastSkipTLSVerify, this]


/-! ## The proxy forwarder: construction, sending, results -/

/-- The two messages differ from their eleventh byte on. -/
theorem create_msg_ne_send_msg (x t : String) :
    "failed to create proxy request: " ++ x ≠ "failed to send proxy request" ++ t := by
  intro h
  have h2 := congrArg (fun s => s.data.get? 10) h
  simp [String.data_append] at h2

/-- When no query parameters are supplied, `prepare` leaves the URL alone. -/
theorem prepare_url_of_nil (std : GoStd) (c : PortainerClient) (opts : ProxyRequestOptions)
    (req : Request) (hq : opts.QueryParams = none) :
    (prepare std c opts req).URL = req.URL := by
  simp [prepare, hq]

/-- When an empty mapping is supplied and the URL carries no query,
`prepare` writes the empty query back and so leaves the URL alone. -/
theorem prepare_url_of_empty (std : GoStd) (c : PortainerClient) (opts : ProxyRequestOptions)
    (req : Request) (hq : opts.QueryParams = some []) (hr : req.URL.RawQuery = "") :
    (prepare std c opts req).URL = req.URL := by
  have henc : (URL.Query std req.URL).Encode = "" := by
    simp [URL.Query, ParseQuery, hr, Values.Encode, Values.pairs, sortKeys, MultiMap.keys,
      String.intercalate]
  have hu : (prepare std c opts req).URL = { req.URL with RawQuery := "" } := by
    simp [prepare, hq, henc]
  rw [hu, ← hr]

/-- The outcome of `proxyRequest` once the request is constructed. -/
theorem proxyRequest_of_ok (std : GoStd) (c : PortainerClient) (baseURL : String)
    (opts : ProxyRequestOptions) (req0 : Request)
    (hnew : NewRequest std opts.Method baseURL opts.Body = .ok req0) :
    proxyRequest std c baseURL opts =
      match std.Do c.proxyCli.cli (prepare std c opts req0) with
      | (_, some err) =>
        { resp := none, err := some (Errorf "failed to send proxy request: " err),
          sent := [prepare std c opts req0] }
      | (resp, none) => { resp := resp, err := none, sent := [prepare std c opts req0] } := by
  simp [proxyRequest, hnew]

/-- Once the request is constructed, exactly that one prepared request is
handed to the HTTP client. -/
theorem sent_of_ok (std : GoStd) (c : PortainerClient) (baseURL : String)
    (opts : ProxyRequestOptions) (req0 : Request)
    (hnew : NewRequest std opts.Method baseURL opts.Body = .ok req0) :
    (proxyRequest std c baseURL opts).sent = [prepare std c opts req0] := by
  rw [proxyRequest_of_ok std c baseURL opts req0 hnew]
  rcases h : std.Do c.proxyCli.cli (prepare std c opts req0) with ⟨r, _ | e⟩ <;> simp


/-- The two entry points are `proxyRequest` at their formatted URL, so every
statement about `proxyRequest` at an arbitrary URL holds for both. -/
theorem entry_points_eq (std : GoStd) (c : PortainerClient) (n : Int)
    (opts : ProxyRequestOptions) :
    ProxyDockerRequest std c n opts
      = proxyRequest std c (c.proxyCli.scheme ++ "://" ++ c.proxyCli.host
          ++ c.proxyCli.basePath ++ "/endpoints/" ++ toString n ++ "/docker" ++ opts.APIPath)
          opts ∧
    ProxyKubernetesRequest std c n opts
      = proxyRequest std c (c.proxyCli.scheme ++ "://" ++ c.proxyCli.host
          ++ c.proxyCli.basePath ++ "/endpoints/" ++ toString n ++ "/kubernetes"
          ++ opts.APIPath) opts :=
  ⟨rfl, rfl⟩

/-- C1 as stated fails: the descriptor has an empty mapping, so no query
parameters, and the sub-path `/x?b=2&a=1`; the URL constructed from
`https://h/api/endpoints/5/docker/x?b=2&a=1` has the raw query `b=2&a=1`, but
the request sent has the raw query `a=1&b=2`. -/
theorem empty_mapping_reencodes_query :
    rangeOf (some []) = [] ∧
    (NewPortainerClient "h" "secret" []).proxyCli.scheme ++ "://"
        ++ (NewPortainerClient "h" "secret" []).proxyCli.host
        ++ (NewPortainerClient "h" "secret" []).proxyCli.basePath ++ "/endpoints/"
        ++ toString (5 : Int) ++ "/docker" ++ "/x?b=2&a=1"
      = "https://h/api/endpoints/5/docker/x?b=2&a=1" ∧
    (∃ req0, NewRequest (answering 200) "GET" "https://h/api/endpoints/5/docker/x?b=2&a=1" none
        = .ok req0 ∧ req0.URL.RawQuery = "b=2&a=1" ∧
      (ProxyDockerRequest (answering 200) (NewPortainerClient "h" "secret" []) 5
        ⟨"GET", "/x?b=2&a=1", some [], none, none⟩).sent.map (fun r => r.URL) ≠ [req0.URL]) ∧
    (ProxyDockerRequest (answering 200) (NewPortainerClient "h" "secret" []) 5
        ⟨"GET", "/x?b=2&a=1", some [], none, none⟩).sent.map (fun r => r.URL.RawQuery)
      = ["a=1&b=2"] := by
  refine ⟨rfl, by decide, ⟨_, rfl, by decide, by decide⟩, by decide⟩

/-- C1, amended: when the query-parameter mapping is nil, or is empty while
the URL constructed carries no query, then whenever `http.NewRequest` accepts
the method and the string
`scheme ++ "://" ++ host ++ basePath ++ "/endpoints/" ++ decimal n ++ "/docker" ++ subPath`,
`ProxyDockerRequest` hands the HTTP client exactly one request, whose URL is
the one constructed from that string; `ProxyKubernetesRequest` does the same
with `/kubernetes`; and for host `h` with the default base path and scheme the
two strings are `https://h/api/endpoints/5/docker/containers/json` and
`https://h/api/endpoints/3/kubernetes/api/v1/pods`. -/
theorem proxy_request_url (std : GoStd) (c : PortainerClient) (n : Int)
    (opts : ProxyRequestOptions)
    (hq : opts.QueryParams = none ∨ opts.QueryParams = some []) :
    (∀ req0, NewRequest std opts.Method
        (c.proxyCli.scheme ++ "://" ++ c.proxyCli.host ++ c.proxyCli.basePath ++ "/endpoints/"
          ++ toString n ++ "/docker" ++ opts.APIPath) opts.Body = .ok req0 →
      (opts.QueryParams = some [] → req0.URL.RawQuery = "") →
      ∃ req, (ProxyDockerRequest std c n opts).sent = [req] ∧ req.URL = req0.URL) ∧
    (∀ req0, NewRequest std opts.Method
        (c.proxyCli.scheme ++ "://" ++ c.proxyCli.host ++ c.proxyCli.basePath ++ "/endpoints/"
          ++ toString n ++ "/kubernetes" ++ opts.APIPath) opts.Body = .ok req0 →
      (opts.QueryParams = some [] → req0.URL.RawQuery = "") →
      ∃ req, (ProxyKubernetesRequest std c n opts).sent = [req] ∧ req.URL = req0.URL) ∧
    (∀ apiKey method body,
      ProxyDockerRequest std (NewPortainerClient "h" apiKey []) 5
          ⟨method, "/containers/json", none, none, body⟩
        = proxyRequest std (NewPortainerClient "h" apiKey [])
            "https://h/api/endpoints/5/docker/containers/json"
            ⟨method, "/containers/json", none, none, body⟩ ∧
      ProxyKubernetesRequest std (NewPortainerClient "h" apiKey []) 3
          ⟨method, "/api/v1/pods", none, none, body⟩
        = proxyRequest std (NewPortainerClient "h" apiKey [])
            "https://h/api/endpoints/3/kubernetes/api/v1/pods"
            ⟨method, "/api/v1/pods", none, none, body⟩) := by
  have hurl : ∀ req0 : Request, (opts.QueryParams = some [] → req0.URL.RawQuery = "") →
      (prepare std c opts req0).URL = req0.URL := by
    intro req0 hr
    rcases hq with h | h
    · exact prepare_url_of_nil std c opts req0 h
    · exact prepare_url_of_empty std c opts req0 h (hr h)
  refine ⟨?_, ?_, ?_⟩
  · intro req0 hnew hr
    exact ⟨prepare std c opts req0, sent_of_ok std c _ opts req0 hnew, hurl req0 hr⟩
  · intro req0 hnew hr
    exact ⟨prepare std c opts req0, sent_of_ok std c _ opts req0 hnew, hurl req0 hr⟩
  · intro apiKey method body
    constructor
    · show proxyRequest _ _ _ _ = _
      congr 1
    · show proxyRequest _ _ _ _ = _
      congr 1

/-- C1, amended, at host `h`, key `secret`, environment 5: for
`GET /containers/json` with a nil mapping, and for `GET /info` with an empty
mapping, the request sent carries the URL parsed from the formatted string. -/
theorem proxy_request_url_witness :
    (ProxyDockerRequest (answering 200) (NewPortainerClient "h" "secret" []) 5
        ⟨"GET", "/containers/json", none, none, none⟩).sent.map (fun r => r.URL)
      = [{ Scheme := "https", Opaque := "", User := "", Host := "h",
           Path := "/api/endpoints/5/docker/containers/json", RawPath := "",
           ForceQuery := false, RawQuery := "", Fragment := "", RawFragment := "" }] ∧
    (ProxyDockerRequest (answering 200) (NewPortainerClient "h" "secret" []) 5
        ⟨"GET", "/info", some [], none, none⟩).sent.map (fun r => r.URL)
      = [{ Scheme := "https", Opaque := "", User := "", Host := "h",
           Path := "/api/endpoints/5/docker/info", RawPath := "",
           ForceQuery := false, RawQuery := "", Fragment := "", RawFragment := "" }] := by
  constructor
  · obtain ⟨req, hs, hu⟩ :=
      (proxy_request_url (answering 200) (NewPortainerClient "h" "secret" []) 5
        ⟨"GET", "/containers/json", none, none, none⟩ (Or.inl rfl)).1
        { Method := "GET"
          URL := { Scheme := "https", Opaque := "", User := "", Host := "h",
                   Path := "/api/endpoints/5/docker/containers/json", RawPath := "",
                   ForceQuery := false, RawQuery := "", Fragment := "", RawFragment := "" }
          Header := ⟨[]⟩, Body := none, Host := "h" } rfl (fun _ => rfl)
    simp [hs, hu]
  · obtain ⟨req, hs, hu⟩ :=
      (proxy_request_url (answering 200) (NewPortainerClient "h" "secret" []) 5
        ⟨"GET", "/info", some [], none, none⟩ (Or.inr rfl)).1
        { Method := "GET"
          URL := { Scheme := "https", Opaque := "", User := "", Host := "h",
                   Path := "/api/endpoints/5/docker/info", RawPath := "",
                   ForceQuery := false, RawQuery := "", Fragment := "", RawFragment := "" }
          Header := ⟨[]⟩, Body := none, Host := "h" } rfl (fun _ => rfl)
    simp [hs, hu]

/-- C7: when the request is constructed and the HTTP client returns the
error `e` (with or without a response), `proxyRequest` returns no response and
the error `fmt.Errorf("failed to send proxy request: %w", e)`, whose message
is that text followed by the message of `e` and whose `Unwrap` is `e`;
conversely, whenever `proxyRequest` returns an error whose message starts with
`failed to send proxy request`, the request was constructed and handed to the
HTTP client, which returned the error that the result wraps. -/
theorem transport_error_wrapped (std : GoStd) (c : PortainerClient) (baseURL : String)
    (opts : ProxyRequestOptions) (req0 : Request) (r : Option Response) (e : GoError)
    (hnew : NewRequest std opts.Method baseURL opts.Body = .ok req0)
    (hdo : std.Do c.proxyCli.cli (prepare std c opts req0) = (r, some e)) :
    (proxyRequest std c baseURL opts).resp = none ∧
    (∃ err, (proxyRequest std c baseURL opts).err = some err ∧
      err.Error = "failed to send proxy request: " ++ e.Error ∧ err.Unwrap = some e) ∧
    (∀ (std2 : GoStd) (c2 : PortainerClient) (url2 : String) (opts2 : ProxyRequestOptions)
        (err : GoError) (t : String),
      (proxyRequest std2 c2 url2 opts2).err = some err →
      err.Error = "failed to send proxy request" ++ t →
      ∃ q0 r2 e2, NewRequest std2 opts2.Method url2 opts2.Body = .ok q0 ∧
        std2.Do c2.proxyCli.cli (prepare std2 c2 opts2 q0) = (r2, some e2) ∧
        (proxyRequest std2 c2 url2 opts2).sent = [prepare std2 c2 opts2 q0] ∧
        err = Errorf "failed to send proxy request: " e2 ∧ err.Unwrap = some e2) := by
  refine ⟨?_, ?_, ?_⟩
  · rw [proxyRequest_of_ok std c baseURL opts req0 hnew, hdo]
  · rw [proxyRequest_of_ok std c baseURL opts req0 hnew, hdo]
    exact ⟨_, rfl, rfl, rfl⟩
  · intro std2 c2 url2 opts2 err t herr hmsg
    cases hn : NewRequest std2 opts2.Method url2 opts2.Body with
    | error cause =>
      simp only [proxyRequest, hn, Option.some.injEq] at herr
      subst herr
      exact absurd hmsg (create_msg_ne_send_msg _ _)
    | ok q0 =>
      rw [proxyRequest_of_ok std2 c2 url2 opts2 q0 hn] at herr ⊢
      rcases hd : std2.Do c2.proxyCli.cli (prepare std2 c2 opts2 q0) with ⟨r2, _ | e2⟩
      · simp [hd] at herr
      · simp only [hd, Option.some.injEq] at herr
        subst herr
        exact ⟨q0, r2, e2, rfl, hd, by simp [hd], rfl, rfl⟩

/-- C7 on a network that refuses every connection. -/
theorem transport_error_wrapped_witness :
    (proxyRequest (failing (.plain "dial tcp: connection refused"))
        (NewPortainerClient "h" "secret" []) "https://h/api/endpoints/5/docker/info"
        ⟨"GET", "/info", none, none, none⟩).resp = none ∧
    (proxyRequest (failing (.plain "dial tcp: connection refused"))
        (NewPortainerClient "h" "secret" []) "https://h/api/endpoints/5/docker/info"
        ⟨"GET", "/info", none, none, none⟩).err
      = some (.wrapped "failed to send proxy request: dial tcp: connection refused"
          (.plain "dial tcp: connection refused")) := by
  have h := transport_error_wrapped (failing (.plain "dial tcp: connection refused"))
    (NewPortainerClient "h" "secret" []) "https://h/api/endpoints/5/docker/info"
    ⟨"GET", "/info", none, none, none⟩
    { Method := "GET"
      URL := { Scheme := "https", Opaque := "", User := "", Host := "h",
               Path := "/api/endpoints/5/docker/info", RawPath := "",
               ForceQuery := false, RawQuery := "", Fragment := "", RawFragment := "" }
      Header := ⟨[]⟩, Body := none, Host := "h" }
    none (.plain "dial tcp: connection refused") rfl rfl
  exact ⟨h.1, rfl⟩

/-- C8: when `http.NewRequest` rejects the method or the URL with the error
`cause`, `proxyRequest` returns no response and the error
`fmt.Errorf("failed to create proxy request: %w", cause)`, hands no request to
the HTTP client, returns the same whatever the HTTP client would do, and the
error differs, by its message, from every error of a failed send. -/
theorem construction_error_wrapped (std : GoStd) (c : PortainerClient) (baseURL : String)
    (opts : ProxyRequestOptions) (cause : GoError)
    (hnew : NewRequest std opts.Method baseURL opts.Body = .error cause) :
    proxyRequest std c baseURL opts =
      { resp := none
        err := some (.wrapped ("failed to create proxy request: " ++ cause.Error) cause)
        sent := [] } ∧
    (∀ doer, proxyRequest { std with Do := doer } c baseURL opts
      = proxyRequest std c baseURL opts) ∧
    (∀ err, (proxyRequest std c baseURL opts).err = some err →
      err.Unwrap = some cause ∧
      ∀ e, err ≠ Errorf "failed to send proxy request: " e ∧
        err.Error ≠ (Errorf "failed to send proxy request: " e).Error) := by
  have hmain : proxyRequest std c baseURL opts =
      { resp := none
        err := some (.wrapped ("failed to create proxy request: " ++ cause.Error) cause)
        sent := [] } := by
    simp [proxyRequest, hnew, Errorf]
  refine ⟨hmain, ?_, ?_⟩
  · intro doer
    have h2 : NewRequest { std with Do := doer } opts.Method baseURL opts.Body
        = .error cause := hnew
    rw [hmain]
    simp [proxyRequest, h2, Errorf]
  · intro err herr
    rw [hmain] at herr
    simp only [Option.some.injEq] at herr
    subst herr
    refine ⟨rfl, fun e => ?_⟩
    have hne : "failed to create proxy request: " ++ cause.Error
        ≠ "failed to send proxy request: " ++ e.Error := by
      have := create_msg_ne_send_msg cause.Error (": " ++ e.Error)
      simpa [← String.append_assoc] using this
    constructor
    · intro h
      simp only [Errorf, GoError.wrapped.injEq] at h
      exact hne h.1
    · simpa [Errorf, GoError.Error] using hne

/-- C8 at the method `BAD METHOD`, which is not a token. -/
theorem construction_error_wrapped_witness :
    proxyRequest (answering 200) (NewPortainerClient "h" "secret" [])
        "https://h/api/endpoints/5/docker/info" ⟨"BAD METHOD", "/info", none, none, none⟩
      = { resp := none
          err := some (.wrapped
            "failed to create proxy request: net/http: invalid method \"BAD METHOD\""
            (.plain "net/http: invalid method \"BAD METHOD\""))
          sent := [] } :=
  (construction_error_wrapped (answering 200) (NewPortainerClient "h" "secret" [])
    "https://h/api/endpoints/5/docker/info" ⟨"BAD METHOD", "/info", none, none, none⟩
    (.plain "net/http: invalid method \"BAD METHOD\"") rfl).1

/-- C9: when the request is constructed and the HTTP client returns the
response `r` with no error, `proxyRequest` returns `r` itself with a nil
error, having handed the HTTP client exactly one request; the status code of
`r` plays no part. -/
theorem response_returned_as_is (std : GoStd) (c : PortainerClient) (baseURL : String)
    (opts : ProxyRequestOptions) (req0 : Request) (r : Option Response)
    (hnew : NewRequest std opts.Method baseURL opts.Body = .ok req0)
    (hdo : std.Do c.proxyCli.cli (prepare std c opts req0) = (r, none)) :
    proxyRequest std c baseURL opts =
      { resp := r, err := none, sent := [prepare std c opts req0] } := by
  rw [proxyRequest_of_ok std c baseURL opts req0 hnew, hdo]

/-- C9 on a server that answers 500. -/
theorem response_returned_as_is_witness :
    (proxyRequest (answering 500) (NewPortainerClient "h" "secret" [])
        "https://h/api/endpoints/5/docker/info" ⟨"GET", "/info", none, none, none⟩).resp
      = some { StatusCode := 500, Header := ⟨[]⟩, Body := [] } ∧
    (proxyRequest (answering 500) (NewPortainerClient "h" "secret" [])
        "https://h/api/endpoints/5/docker/info" ⟨"GET", "/info", none, none, none⟩).err
      = none := by
  have h := response_returned_as_is (answering 500) (NewPortainerClient "h" "secret" [])
    "https://h/api/endpoints/5/docker/info" ⟨"GET", "/info", none, none, none⟩
    { Method := "GET"
      URL := { Scheme := "https", Opaque := "", User := "", Host := "h",
               Path := "/api/endpoints/5/docker/info", RawPath := "",
               ForceQuery := false, RawQuery := "", Fragment := "", RawFragment := "" }
      Header := ⟨[]⟩, Body := none, Host := "h" }
    (some { StatusCode := 500, Header := ⟨[]⟩, Body := [] }) rfl rfl
  rw [h]
  exact ⟨rfl, rfl⟩


/-! ## Maps and the authentication header -/

/-- Dropping the entries of one key does not change the lookup of another. -/
theorem lookup_filter_ne (m : MultiMap) (k k' : String) (h : k' ≠ k) :
    (m.filter (fun e => e.1 ≠ k)).lookup k' = m.lookup k' := by
  induction m with
  | nil => rfl
  | cons e m ih =>
    obtain ⟨a, vs⟩ := e
    by_cases hak : a = k
    · have hf : List.filter (fun e : String × List String => decide (e.1 ≠ k)) ((a, vs) :: m)
          = List.filter (fun e => decide (e.1 ≠ k)) m := by
        simp [List.filter_cons, hak]
      have hb : (k' == a) = false := by
        rw [hak]; simpa using h
      rw [hf, ih, List.lookup_cons, hb]
    · have hf : List.filter (fun e : String × List String => decide (e.1 ≠ k)) ((a, vs) :: m)
          = (a, vs) :: List.filter (fun e => decide (e.1 ≠ k)) m := by
        simp [List.filter_cons, hak]
      rw [hf, List.lookup_cons, List.lookup_cons, ih]

/-- Reading a map after the assignment `m[k] = vs`. -/
theorem MultiMap.get_assign (m : MultiMap) (k : String) (vs : List String) (k' : String) :
    (m.assign k vs).get k' = if k' = k then vs else m.get k' := by
  by_cases h : k' = k
  · subst h
    simp [MultiMap.assign, MultiMap.get, List.lookup_cons]
  · have hb : (k' == k) = false := by simpa using h
    rw [if_neg h]
    unfold MultiMap.assign MultiMap.get
    rw [List.lookup_cons, hb, lookup_filter_ne m k k' h]

/-- The canonical form of the authentication header name. -/
theorem canonical_x_api_key : CanonicalMIMEHeaderKey "x-api-key" = "X-Api-Key" := by
  decide

/-- After a run of `Header.Set` calls, the entry of a canonical key holds the
value of the last call whose key has that canonical form, and is untouched
when there is no such call. -/
theorem header_fold_get (hs : List (String × String)) (h : Header) (K : String) :
    (hs.foldl (fun h kv => h.Set kv.1 kv.2) h).m.get K =
      match (hs.filter (fun kv => decide (CanonicalMIMEHeaderKey kv.1 = K))).getLast? with
      | some kv => [kv.2]
      | none => h.m.get K := by
  induction hs using List.reverseRecOn with
  | nil => simp
  | append_singleton l a ih =>
    rw [List.foldl_append, List.filter_append, List.getLast?_append]
    simp only [List.foldl_cons, List.foldl_nil, Header.Set, MultiMap.get_assign]
    by_cases hc : CanonicalMIMEHeaderKey a.1 = K
    · have hf : List.filter (fun kv : String × String =>
          decide (CanonicalMIMEHeaderKey kv.1 = K)) [a] = [a] := by
        simp [List.filter_cons, hc]
      rw [hf, if_pos hc.symm]
      rfl
    · have hf : List.filter (fun kv : String × String =>
          decide (CanonicalMIMEHeaderKey kv.1 = K)) [a] = [] := by
        simp [List.filter_cons, hc]
      have hc' : ¬ K = CanonicalMIMEHeaderKey a.1 := fun h => hc h.symm
      rw [hf, if_neg hc']
      exact ih

/-- The header of the prepared request. -/
theorem prepare_header (std : GoStd) (c : PortainerClient) (opts : ProxyRequestOptions)
    (req : Request) :
    (prepare std c opts req).Header =
      (rangeOf opts.Headers).foldl (fun h kv => h.Set kv.1 kv.2)
        (req.Header.Set "x-api-key" c.proxyCli.token) := by
  unfold prepare
  cases opts.QueryParams <;> rfl

/-- The `x-api-key` values of the prepared request: the value of the last
caller header whose canonical name is `X-Api-Key`, the token when there is
none. -/
theorem prepare_auth_values (std : GoStd) (c : PortainerClient) (opts : ProxyRequestOptions)
    (req : Request) :
    (prepare std c opts req).Header.Values "x-api-key" =
      match ((rangeOf opts.Headers).filter
        (fun kv => decide (CanonicalMIMEHeaderKey kv.1 = "X-Api-Key"))).getLast? with
      | some kv => [kv.2]
      | none => [c.proxyCli.token] := by
  rw [Header.Values, prepare_header, canonical_x_api_key, header_fold_get]
  cases ((rangeOf opts.Headers).filter
      (fun kv => decide (CanonicalMIMEHeaderKey kv.1 = "X-Api-Key"))).getLast? with
  | some kv => rfl
  | none =>
    simp only [Header.Set, canonical_x_api_key, MultiMap.get_assign]
    simp


/-- C2 as stated fails: the caller's mapping has the one header `X-API-KEY`,
so none named exactly `x-api-key`, yet the `x-api-key` header of the request
sent is the caller's `evil` and not the token `secret`. -/
theorem caller_header_other_case_overrides :
    "x-api-key" ∉ (rangeOf (some [("X-API-KEY", "evil")])).map Prod.fst ∧
    (ProxyDockerRequest (answering 200) (NewPortainerClient "h" "secret" []) 5
        ⟨"GET", "/containers/json", none, some [("X-API-KEY", "evil")], none⟩).sent.map
      (fun r => r.Header.Get "x-api-key") = ["evil"] ∧
    (NewPortainerClient "h" "secret" []).proxyCli.token = "secret" := by
  decide

/-- C2, amended: for every proxied request that is constructed, exactly one
request is sent; its `x-api-key` header equals the token when no caller
header has the canonical name `X-Api-Key` (the same name up to ASCII case);
otherwise it is the value of the last such caller header in the order the
mapping is visited, and in particular the caller's value when exactly one
caller header has that canonical name. -/
theorem caller_header_precedence (std : GoStd) (c : PortainerClient) (baseURL : String)
    (opts : ProxyRequestOptions) (req0 : Request)
    (hnew : NewRequest std opts.Method baseURL opts.Body = .ok req0) :
    ∃ req, (proxyRequest std c baseURL opts).sent = [req] ∧
      ((∀ kv ∈ rangeOf opts.Headers, CanonicalMIMEHeaderKey kv.1 ≠ "X-Api-Key") →
        req.Header.Get "x-api-key" = c.proxyCli.token) ∧
      (∀ kv, ((rangeOf opts.Headers).filter
          (fun kv => decide (CanonicalMIMEHeaderKey kv.1 = "X-Api-Key"))).getLast? = some kv →
        req.Header.Get "x-api-key" = kv.2) ∧
      (∀ kv, (rangeOf opts.Headers).filter
          (fun kv => decide (CanonicalMIMEHeaderKey kv.1 = "X-Api-Key")) = [kv] →
        req.Header.Get "x-api-key" = kv.2) := by
  refine ⟨prepare std c opts req0, sent_of_ok std c baseURL opts req0 hnew, ?_, ?_, ?_⟩
  · intro hno
    have hf : (rangeOf opts.Headers).filter
        (fun kv => decide (CanonicalMIMEHeaderKey kv.1 = "X-Api-Key")) = [] := by
      rw [List.filter_eq_nil_iff]
      intro kv hkv
      simpa using hno kv hkv
    simp [Header.Get, prepare_auth_values, hf]
  · intro kv hlast
    simp [Header.Get, prepare_auth_values, hlast]
  · intro kv hone
    simp [Header.Get, prepare_auth_values, hone]

/-- C2, amended, at a caller mapping with the header `x-api-key` itself. -/
theorem caller_header_precedence_witness :
    (ProxyDockerRequest (answering 200) (NewPortainerClient "h" "secret" []) 5
        ⟨"GET", "/info", none, some [("Accept", "*/*"), ("x-api-key", "mine")], none⟩).sent.map
      (fun r => r.Header.Get "x-api-key") = ["mine"] := by
  obtain ⟨req, hs, _, h2, _⟩ :=
    caller_header_precedence (answering 200) (NewPortainerClient "h" "secret" [])
      "https://h/api/endpoints/5/docker/info"
      ⟨"GET", "/info", none, some [("Accept", "*/*"), ("x-api-key", "mine")], none⟩
      { Method := "GET"
        URL := { Scheme := "https", Opaque := "", User := "", Host := "h",
                 Path := "/api/endpoints/5/docker/info", RawPath := "",
                 ForceQuery := false, RawQuery := "", Fragment := "", RawFragment := "" }
        Header := ⟨[]⟩, Body := none, Host := "h" } rfl
  have h3 := h2 ("x-api-key", "mine") (by decide)
  have hs2 : (ProxyDockerRequest (answering 200) (NewPortainerClient "h" "secret" []) 5
      ⟨"GET", "/info", none, some [("Accept", "*/*"), ("x-api-key", "mine")], none⟩).sent
      = [req] := hs
  rw [hs2]
  simp [h3]

/-- C3 as stated fails: with the caller header `x-api-key: evil` a request is
sent, and its `x-api-key` header is `evil`, not the API key `secret` given at
construction. -/
theorem auth_header_not_always_the_api_key :
    (ProxyDockerRequest (answering 200) (NewPortainerClient "h" "secret" []) 5
        ⟨"GET", "/containers/json", none, some [("x-api-key", "evil")], none⟩).sent.map
      (fun r => r.Header.Values "x-api-key") = [["evil"]] ∧
    (NewPortainerClient "h" "secret" []).proxyCli.token = "secret" := by
  decide

/-- C3, amended: every request that a proxy call sends carries exactly one
`x-api-key` value; that value is the API key given at construction whenever
the caller supplies no header whose canonical name is `X-Api-Key`; and
whenever the caller supplies such a header, the value is the caller's: it is
the value of the last caller header of that canonical name in the order the
mapping is visited, hence of one of the caller's headers of that name. -/
theorem auth_header_present (std : GoStd) (host apiKey : String) (calls : List OptionCall)
    (baseURL : String) (opts : ProxyRequestOptions) (req : Request)
    (hsent : req ∈ (proxyRequest std
      (NewPortainerClient host apiKey (calls.map OptionCall.toOption)) baseURL opts).sent) :
    ∃ v, req.Header.Values "x-api-key" = [v] ∧
      ((∀ kv ∈ rangeOf opts.Headers, CanonicalMIMEHeaderKey kv.1 ≠ "X-Api-Key") →
        v = apiKey) ∧
      (∀ kv, ((rangeOf opts.Headers).filter
          (fun kv => decide (CanonicalMIMEHeaderKey kv.1 = "X-Api-Key"))).getLast? = some kv →
        v = kv.2) ∧
      ((∃ kv ∈ rangeOf opts.Headers, CanonicalMIMEHeaderKey kv.1 = "X-Api-Key") →
        ∃ kv ∈ rangeOf opts.Headers, CanonicalMIMEHeaderKey kv.1 = "X-Api-Key" ∧ v = kv.2) := by
  have htok : (NewPortainerClient host apiKey (calls.map OptionCall.toOption)).proxyCli.token
      = apiKey := (options_token host apiKey calls)
  cases hn : NewRequest std opts.Method baseURL opts.Body with
  | error cause =>
    simp [proxyRequest, hn] at hsent
  | ok req0 =>
    rw [sent_of_ok std _ baseURL opts req0 hn, List.mem_singleton] at hsent
    subst hsent
    rw [prepare_auth_values, htok]
    cases hl : ((rangeOf opts.Headers).filter
        (fun kv => decide (CanonicalMIMEHeaderKey kv.1 = "X-Api-Key"))).getLast? with
    | none =>
      have hnil : (rangeOf opts.Headers).filter
          (fun kv => decide (CanonicalMIMEHeaderKey kv.1 = "X-Api-Key")) = [] :=
        List.getLast?_eq_none_iff.mp hl
      refine ⟨apiKey, rfl, fun _ => rfl, fun kv h => by simp at h, ?_⟩
      rintro ⟨kv, hkv, hk⟩
      have hmem : kv ∈ (rangeOf opts.Headers).filter
          (fun kv => decide (CanonicalMIMEHeaderKey kv.1 = "X-Api-Key")) :=
        List.mem_filter.mpr ⟨hkv, by simpa using hk⟩
      rw [hnil] at hmem
      simp at hmem
    | some kv =>
      have hmem : kv ∈ (rangeOf opts.Headers).filter
          (fun kv => decide (CanonicalMIMEHeaderKey kv.1 = "X-Api-Key")) :=
        List.mem_of_getLast?_eq_some hl
      rw [List.mem_filter] at hmem
      have hk : CanonicalMIMEHeaderKey kv.1 = "X-Api-Key" := by simpa using hmem.2
      refine ⟨kv.2, rfl, fun hno => absurd hk (hno kv hmem.1), ?_, fun _ => ⟨kv, hmem.1, hk, rfl⟩⟩
      intro kv' h
      simp only [Option.some.injEq] at h
      rw [h]

/-- C3, amended, at a request whose caller headers are `Accept` and
`X-Api-Key: mine`: the one `x-api-key` value sent is the caller's `mine`. -/
theorem auth_header_present_witness :
    ∃ req, req ∈ (proxyRequest (answering 200) (NewPortainerClient "h" "secret" [])
        "https://h/api/endpoints/5/docker/info"
        ⟨"GET", "/info", none, some [("Accept", "*/*"), ("X-Api-Key", "mine")], none⟩).sent ∧
      req.Header.Values "x-api-key" = ["mine"] := by
  have hmem : (prepare (answering 200) (NewPortainerClient "h" "secret" [])
      ⟨"GET", "/info", none, some [("Accept", "*/*"), ("X-Api-Key", "mine")], none⟩
      { Method := "GET"
        URL := { Scheme := "https", Opaque := "", User := "", Host := "h",
                 Path := "/api/endpoints/5/docker/info", RawPath := "",
                 ForceQuery := false, RawQuery := "", Fragment := "", RawFragment := "" }
        Header := ⟨[]⟩, Body := none, Host := "h" }) ∈
      (proxyRequest (answering 200) (NewPortainerClient "h" "secret" [])
        "https://h/api/endpoints/5/docker/info"
        ⟨"GET", "/info", none, some [("Accept", "*/*"), ("X-Api-Key", "mine")], none⟩).sent := by
    decide
  obtain ⟨v, hv, _, h2, _⟩ := auth_header_present (answering 200) "h" "secret" []
    "https://h/api/endpoints/5/docker/info"
    ⟨"GET", "/info", none, some [("Accept", "*/*"), ("X-Api-Key", "mine")], none⟩ _ hmem
  refine ⟨_, hmem, ?_⟩
  rw [hv, h2 ("X-Api-Key", "mine") (by decide)]

/-! ## The order of keys -/

/-- A character is determined by its code. -/
theorem char_eq_of_toNat_eq (a b : Char) (h : a.toNat = b.toNat) : a = b :=
  Char.ext (UInt32.toNat.inj h)

/-- The bytewise comparison is reflexive. -/
theorem leChars_refl (a : List Char) : leChars a a = true := by
  induction a with
  | nil => rfl
  | cons x xs ih => simp [leChars, ih]

/-- Of two strings, one is below the other. -/
theorem leChars_total (a b : List Char) : leChars a b = true ∨ leChars b a = true := by
  induction a generalizing b with
  | nil => exact Or.inl rfl
  | cons x xs ih =>
    cases b with
    | nil => exact Or.inr rfl
    | cons y ys =>
      rcases Nat.lt_trichotomy x.toNat y.toNat with h | h | h
      · left; simp [leChars, h]
      · rcases ih ys with h2 | h2
        · left; simp [leChars, h, h2]
        · right; simp [leChars, h, h2]
      · right; simp [leChars, h]

/-- The bytewise comparison is antisymmetric. -/
theorem leChars_antisymm (a b : List Char) (h1 : leChars a b = true)
    (h2 : leChars b a = true) : a = b := by
  induction a generalizing b with
  | nil =>
    cases b with
    | nil => rfl
    | cons y ys => simp [leChars] at h2
  | cons x xs ih =>
    cases b with
    | nil => simp [leChars] at h1
    | cons y ys =>
      rcases Nat.lt_trichotomy x.toNat y.toNat with h | h | h
      · have h' : ¬ y.toNat < x.toNat := by omega
        simp [leChars, h, h'] at h2
      · have hxy := char_eq_of_toNat_eq x y h
        subst hxy
        simp [leChars] at h1 h2
        rw [ih ys h1 h2]
      · have h' : ¬ x.toNat < y.toNat := by omega
        simp [leChars, h, h'] at h1

/-- The bytewise comparison is transitive. -/
theorem leChars_trans (a b c : List Char) (h1 : leChars a b = true)
    (h2 : leChars b c = true) : leChars a c = true := by
  induction a generalizing b c with
  | nil => rfl
  | cons x xs ih =>
    cases b with
    | nil => simp [leChars] at h1
    | cons y ys =>
      cases c with
      | nil => simp [leChars] at h2
      | cons z zs =>
        simp only [leChars] at h1 h2 ⊢
        by_cases hxy : x.toNat < y.toNat
        · by_cases hyz : y.toNat < z.toNat
          · have : x.toNat < z.toNat := by omega
            simp [this]
          · by_cases hzy : z.toNat < y.toNat
            · simp [hyz, hzy] at h2
            · have : x.toNat < z.toNat := by omega
              simp [this]
        · by_cases hyx : y.toNat < x.toNat
          · simp [hxy, hyx] at h1
          · simp only [hxy, hyx, if_false] at h1
            by_cases hyz : y.toNat < z.toNat
            · have : x.toNat < z.toNat := by omega
              simp [this]
            · by_cases hzy : z.toNat < y.toNat
              · simp [hyz, hzy] at h2
              · simp only [hyz, hzy, if_false] at h2
                have e1 : ¬ x.toNat < z.toNat := by omega
                have e2 : ¬ z.toNat < x.toNat := by omega
                simp only [e1, e2, if_false]
                exact ih ys zs h1 h2

/-- The key order is total. -/
theorem keyLE_total : IsTotal String KeyLE := ⟨fun a b => leChars_total a.data b.data⟩

/-- The key order is transitive. -/
theorem keyLE_trans : IsTrans String KeyLE :=
  ⟨fun a b c => leChars_trans a.data b.data c.data⟩

/-- The key order is antisymmetric. -/
theorem keyLE_antisymm : IsAntisymm String KeyLE :=
  ⟨fun a b h1 h2 => String.ext (leChars_antisymm a.data b.data h1 h2)⟩

/-- The sorted keys are in order. -/
theorem sortKeys_sorted (keys : List String) : (sortKeys keys).Sorted KeyLE :=
  haveI := keyLE_total
  haveI := keyLE_trans
  List.sorted_insertionSort KeyLE keys

/-- Sorting rearranges the keys. -/
theorem sortKeys_perm (keys : List String) : (sortKeys keys).Perm keys :=
  List.perm_insertionSort KeyLE keys

/-- Sorting does not depend on the order the keys come in. -/
theorem sortKeys_eq_of_perm (l₁ l₂ : List String) (h : l₁.Perm l₂) :
    sortKeys l₁ = sortKeys l₂ :=
  haveI := keyLE_antisymm
  List.eq_of_perm_of_sorted
    (((sortKeys_perm l₁).trans h).trans (sortKeys_perm l₂).symm)
    (sortKeys_sorted l₁) (sortKeys_sorted l₂)


/-! ## `url.Values` under a run of `Set` calls -/

/-- The keys after the assignment `m[k] = vs`. -/
theorem MultiMap.keys_assign (m : MultiMap) (k : String) (vs : List String) :
    (m.assign k vs).keys = k :: m.keys.filter (fun a => a ≠ k) := by
  unfold MultiMap.assign MultiMap.keys
  rw [List.map_cons, List.filter_map]
  rfl

/-- An assignment keeps the keys distinct. -/
theorem MultiMap.nodup_assign (m : MultiMap) (k : String) (vs : List String)
    (h : m.keys.Nodup) : (m.assign k vs).keys.Nodup := by
  rw [MultiMap.keys_assign, List.nodup_cons]
  refine ⟨?_, h.filter _⟩
  intro hmem
  simpa using (List.mem_filter.mp hmem).2

/-- The keys after an assignment are the old keys and the assigned one. -/
theorem MultiMap.mem_keys_assign (m : MultiMap) (k : String) (vs : List String)
    (k' : String) : k' ∈ (m.assign k vs).keys ↔ k' = k ∨ k' ∈ m.keys := by
  rw [MultiMap.keys_assign, List.mem_cons, List.mem_filter]
  by_cases h : k' = k
  · simp [h]
  · simp [h]

/-- A run of `Set` calls keeps the keys distinct. -/
theorem set_fold_nodup (params : List (String × String)) (v : Values) (h : v.m.keys.Nodup) :
    (params.foldl (fun q kv => q.Set kv.1 kv.2) v).m.keys.Nodup := by
  induction params generalizing v with
  | nil => exact h
  | cons p ps ih => exact ih _ (MultiMap.nodup_assign v.m p.1 [p.2] h)

/-- The keys after a run of `Set` calls: the keys set and the keys there
before. -/
theorem set_fold_mem_keys (params : List (String × String)) (v : Values) (k : String) :
    k ∈ (params.foldl (fun q kv => q.Set kv.1 kv.2) v).m.keys ↔
      k ∈ params.map Prod.fst ∨ k ∈ v.m.keys := by
  induction params generalizing v with
  | nil => simp
  | cons p ps ih =>
    rw [List.foldl_cons, ih, Values.Set, MultiMap.mem_keys_assign, List.map_cons, List.mem_cons]
    tauto

/-- A key that no call sets keeps its values. -/
theorem set_fold_get_of_not_mem (params : List (String × String)) (v : Values) (k : String)
    (h : k ∉ params.map Prod.fst) :
    (params.foldl (fun q kv => q.Set kv.1 kv.2) v).m.get k = v.m.get k := by
  induction params generalizing v with
  | nil => rfl
  | cons p ps ih =>
    rw [List.map_cons, List.mem_cons, not_or] at h
    rw [List.foldl_cons, ih _ h.2, Values.Set, MultiMap.get_assign, if_neg h.1]

/-- A key set once holds exactly the value it was set to. -/
theorem set_fold_get_of_mem (params : List (String × String)) (v : Values)
    (hnd : (params.map Prod.fst).Nodup) (kv : String × String) (h : kv ∈ params) :
    (params.foldl (fun q kv => q.Set kv.1 kv.2) v).m.get kv.1 = [kv.2] := by
  induction params generalizing v with
  | nil => simp at h
  | cons p ps ih =>
    rw [List.map_cons, List.nodup_cons] at hnd
    rw [List.foldl_cons]
    rcases List.mem_cons.mp h with h1 | h1
    · subst h1
      rw [set_fold_get_of_not_mem ps _ kv.1 hnd.1, Values.Set, MultiMap.get_assign, if_pos rfl]
    · exact ih _ hnd.2 h1

/-- The map that `url.ParseQuery` builds has distinct keys. -/
theorem parseQuery_nodup (std : GoStd) (query : String) :
    (ParseQuery std query).m.keys.Nodup := by
  unfold ParseQuery
  generalize (if query = "" then [] else std.queryFields query) = fields
  have : ∀ (fs : List (String × String)) (v : Values), v.m.keys.Nodup →
      (fs.foldl (fun v kv => v.Add kv.1 kv.2) v).m.keys.Nodup := by
    intro fs
    induction fs with
    | nil => intro v h; exact h
    | cons f fs ih => intro v h; exact ih _ (MultiMap.nodup_assign v.m f.1 _ h)
  exact this _ _ List.nodup_nil

/-- Selecting one key among the copies made for each key of a list. -/
theorem flatMap_filter_key (keys : List String) (g : String → List String) (k : String)
    (hnd : keys.Nodup) (hk : k ∈ keys) :
    (keys.flatMap (fun a => (g a).map (fun val => (a, val)))).filter
        (fun p => decide (p.1 = k))
      = (g k).map (fun val => (k, val)) := by
  induction keys with
  | nil => simp at hk
  | cons a as ih =>
    rw [List.nodup_cons] at hnd
    rw [List.flatMap_cons, List.filter_append]
    have hnone : ∀ (l : List String), k ∉ l →
        (l.flatMap (fun a => (g a).map (fun val => (a, val)))).filter
          (fun p => decide (p.1 = k)) = [] := by
      intro l hl
      rw [List.filter_eq_nil_iff]
      intro p hp
      rw [List.mem_flatMap] at hp
      obtain ⟨b, hb, hp⟩ := hp
      rw [List.mem_map] at hp
      obtain ⟨val, _, rfl⟩ := hp
      have : b ≠ k := fun e => hl (e ▸ hb)
      simpa using this
    rcases List.mem_cons.mp hk with h1 | h1
    · subst h1
      rw [hnone as hnd.1, List.append_nil, List.filter_eq_self]
      intro p hp
      rw [List.mem_map] at hp
      obtain ⟨val, _, rfl⟩ := hp
      simp
    · have hne : a ≠ k := fun e => hnd.1 (e ▸ h1)
      have : ((g a).map (fun val => (a, val))).filter (fun p => decide (p.1 = k)) = [] := by
        rw [List.filter_eq_nil_iff]
        intro p hp
        rw [List.mem_map] at hp
        obtain ⟨val, _, rfl⟩ := hp
        simpa using hne
      rw [this, List.nil_append, ih hnd.2 h1]

/-- Among the pairs that `Encode` writes, those of one key of the map are
that key with each of its values. -/
theorem pairs_filter_key (v : Values) (k : String) (hnd : v.m.keys.Nodup)
    (hk : k ∈ v.m.keys) :
    v.pairs.filter (fun p => decide (p.1 = k)) = (v.m.get k).map (fun val => (k, val)) := by
  unfold Values.pairs
  exact flatMap_filter_key (sortKeys v.m.keys) v.m.get k
    ((sortKeys_perm v.m.keys).nodup_iff.mpr hnd) ((sortKeys_perm v.m.keys).mem_iff.mpr hk)

/-- The keys of the pairs that `Encode` writes are in order. -/
theorem pairs_sorted (v : Values) : (v.pairs.map Prod.fst).Sorted KeyLE := by
  unfold Values.pairs List.Sorted
  rw [List.pairwise_map, List.pairwise_flatMap]
  constructor
  · intro a _
    rw [List.pairwise_map]
    exact List.pairwise_of_forall (fun _ _ => leChars_refl a.data)
  · refine List.Pairwise.imp ?_ (sortKeys_sorted v.m.keys)
    intro a b hab x hx y hy
    rw [List.mem_map] at hx hy
    obtain ⟨_, _, rfl⟩ := hx
    obtain ⟨_, _, rfl⟩ := hy
    exact hab

/-- Two maps with the same keys and the same values under each key are
written alike by `Encode`. -/
theorem pairs_congr (v₁ v₂ : Values) (hk : v₁.m.keys.Perm v₂.m.keys)
    (hg : ∀ k, v₁.m.get k = v₂.m.get k) : v₁.pairs = v₂.pairs := by
  unfold Values.pairs
  rw [sortKeys_eq_of_perm _ _ hk]
  congr 1
  funext k
  rw [hg k]

/-- The URL of the prepared request when query parameters are supplied. -/
theorem prepare_rawQuery (std : GoStd) (c : PortainerClient) (opts : ProxyRequestOptions)
    (req : Request) (params : List (String × String)) (hq : opts.QueryParams = some params) :
    (prepare std c opts req).URL =
      { req.URL with
        RawQuery := (params.foldl (fun q kv => q.Set kv.1 kv.2) (req.URL.Query std)).Encode } := by
  simp [prepare, hq]


/-! ## `url.QueryEscape` is injective and writes neither `&` nor `=` -/

/-- A list of code words can be read back when the first code word of a
stream determines its symbol. -/
theorem flatMap_injective_of_head {α β : Type} (f : α → List β) (S : α → Prop)
    (hne : ∀ a, S a → f a ≠ [])
    (hhead : ∀ a b r s, S a → S b → f a ++ r = f b ++ s → a = b) :
    ∀ l₁ l₂ : List α, (∀ a ∈ l₁, S a) → (∀ a ∈ l₂, S a) →
      l₁.flatMap f = l₂.flatMap f → l₁ = l₂ := by
  intro l₁
  induction l₁ with
  | nil =>
    intro l₂ _ h₂ h
    cases l₂ with
    | nil => rfl
    | cons b bs =>
      rw [List.flatMap_nil, List.flatMap_cons] at h
      have := List.append_eq_nil.mp h.symm
      exact absurd this.1 (hne b (h₂ b (List.mem_cons_self _ _)))
  | cons a as ih =>
    intro l₂ h₁ h₂ h
    cases l₂ with
    | nil =>
      rw [List.flatMap_nil, List.flatMap_cons] at h
      have := List.append_eq_nil.mp h
      exact absurd this.1 (hne a (h₁ a (List.mem_cons_self _ _)))
    | cons b bs =>
      rw [List.flatMap_cons, List.flatMap_cons] at h
      have hab : a = b :=
        hhead a b _ _ (h₁ a (List.mem_cons_self _ _)) (h₂ b (List.mem_cons_self _ _)) h
      subst hab
      have htl := List.append_cancel_left h
      rw [ih bs (fun x hx => h₁ x (List.mem_cons_of_mem _ hx))
        (fun x hx => h₂ x (List.mem_cons_of_mem _ hx)) htl]

/-- The scalar value of a character is below `0x110000`. -/
theorem char_toNat_lt (c : Char) : c.toNat < 0x110000 := by
  have h := c.valid
  unfold UInt32.isValidChar Nat.isValidChar at h
  show c.val.toNat < 0x110000
  omega

/-- The first UTF-8 code word of a byte stream determines its character. -/
theorem utf8Bytes_head (v w : Nat) (r s : List Nat) (hv : v < 0x110000) (hw : w < 0x110000)
    (h : utf8Bytes v ++ r = utf8Bytes w ++ s) : v = w := by
  unfold utf8Bytes at h
  split_ifs at h <;> simp only [List.cons_append, List.nil_append, List.cons.injEq] at h <;> omega

/-- A UTF-8 code word is not empty. -/
theorem utf8Bytes_ne_nil (v : Nat) : utf8Bytes v ≠ [] := by
  unfold utf8Bytes
  split_ifs <;> simp

/-- The bytes of a UTF-8 code word are bytes. -/
theorem utf8Bytes_lt (v : Nat) (hv : v < 0x110000) : ∀ b ∈ utf8Bytes v, b < 256 := by
  intro b hb
  unfold utf8Bytes at hb
  split_ifs at hb <;> simp only [List.mem_cons, List.mem_singleton, List.not_mem_nil,
    or_false] at hb <;> omega

/-- The bytes of a Go string are bytes. -/
theorem bytesOf_lt (s : String) : ∀ b ∈ bytesOf s, b < 256 := by
  intro b hb
  unfold bytesOf at hb
  rw [List.mem_flatMap] at hb
  obtain ⟨c, _, hc⟩ := hb
  exact utf8Bytes_lt c.toNat (char_toNat_lt c) b hc

/-- A string is determined by its bytes. -/
theorem bytesOf_injective (s t : String) (h : bytesOf s = bytesOf t) : s = t := by
  apply String.ext
  refine flatMap_injective_of_head (fun c : Char => utf8Bytes c.toNat) (fun _ => True)
    (fun c _ => utf8Bytes_ne_nil c.toNat) ?_ s.data t.data (fun _ _ => trivial)
    (fun _ _ => trivial) h
  intro a b r s _ _ hab
  exact char_eq_of_toNat_eq a b
    (utf8Bytes_head a.toNat b.toNat r s (char_toNat_lt a) (char_toNat_lt b) hab)

/-- The hexadecimal digits are distinct. -/
theorem upperhex_injective : ∀ d, d < 16 → ∀ e, e < 16 → upperhex d = upperhex e → d = e := by
  decide

set_option maxRecDepth 100000 in
/-- The three shapes of an escaped byte. -/
theorem escapeByte_cases : ∀ n, n < 256 →
    (escapeByte n = ['+'] ∧ n = 32) ∨
    (escapeByte n = ['%', upperhex (n / 16), upperhex (n % 16)]) ∨
    (escapeByte n = [Char.ofNat n] ∧ Char.ofNat n ≠ '+' ∧ Char.ofNat n ≠ '%' ∧
      (Char.ofNat n).toNat = n) := by
  decide

set_option maxRecDepth 100000 in
/-- An escaped byte holds neither `&` nor `=`. -/
theorem escapeByte_no_delim : ∀ n, n < 256 → ∀ ch ∈ escapeByte n, ch ≠ '&' ∧ ch ≠ '=' := by
  decide

/-- The first escaped byte of a stream determines the byte. -/
theorem escapeByte_head (x y : Nat) (r s : List Char) (hx : x < 256) (hy : y < 256)
    (h : escapeByte x ++ r = escapeByte y ++ s) : x = y := by
  rcases escapeByte_cases x hx with ⟨ex, hx32⟩ | ex | ⟨ex, hx1, hx2, hx3⟩ <;>
    rcases escapeByte_cases y hy with ⟨ey, hy32⟩ | ey | ⟨ey, hy1, hy2, hy3⟩ <;>
    rw [ex, ey] at h <;>
    simp only [List.cons_append, List.nil_append, List.cons.injEq] at h
  · omega
  · exact absurd h.1 (by decide)
  · exact absurd h.1.symm hy1
  · exact absurd h.1 (by decide)
  · have h1 := upperhex_injective (x / 16) (by omega) (y / 16) (by omega) h.2.1
    have h2 := upperhex_injective (x % 16) (by omega) (y % 16) (by omega) h.2.2.1
    omega
  · exact absurd h.1.symm hy2
  · exact absurd h.1 hx1
  · exact absurd h.1 hx2
  · rw [← hx3, ← hy3, h.1]

/-- An escaped byte is not empty. -/
theorem escapeByte_ne_nil (n : Nat) : escapeByte n ≠ [] := by
  unfold escapeByte
  split_ifs <;> simp

/-- The function `url.QueryEscape` is injective. -/
theorem queryEscape_injective (s t : String) (h : QueryEscape s = QueryEscape t) : s = t := by
  apply bytesOf_injective
  have hd : (bytesOf s).flatMap escapeByte = (bytesOf t).flatMap escapeByte :=
    congrArg String.data h
  exact flatMap_injective_of_head escapeByte (fun n => n < 256)
    (fun n _ => escapeByte_ne_nil n)
    (fun a b r s ha hb hab => escapeByte_head a b r s ha hb hab)
    (bytesOf s) (bytesOf t) (bytesOf_lt s) (bytesOf_lt t) hd

/-- The output of `url.QueryEscape` holds neither `&` nor `=`. -/
theorem queryEscape_no_delim (s : String) (ch : Char) (h : ch ∈ (QueryEscape s).data) :
    ch ≠ '&' ∧ ch ≠ '=' := by
  have h2 : ch ∈ (bytesOf s).flatMap escapeByte := h
  rw [List.mem_flatMap] at h2
  obtain ⟨n, hn, hch⟩ := h2
  exact escapeByte_no_delim n (bytesOf_lt s n hn) ch hch

/-! ## Splitting an encoded query -/

/-- A string without the separator is one field. -/
theorem splitAt_of_not_mem (c : Char) (x : List Char) (h : c ∉ x) : splitAt c x = [x] := by
  induction x with
  | nil => rfl
  | cons a as ih =>
    rw [List.mem_cons, not_or] at h
    have hne : a ≠ c := fun e => h.1 e.symm
    simp [splitAt, hne, ih h.2]

/-- Splitting after a first field without the separator. -/
theorem splitAt_append (c : Char) (x rest : List Char) (h : c ∉ x) :
    splitAt c (x ++ c :: rest) = x :: splitAt c rest := by
  induction x with
  | nil => simp [splitAt]
  | cons a as ih =>
    rw [List.mem_cons, not_or] at h
    have hne : a ≠ c := fun e => h.1 e.symm
    simp [splitAt, hne, ih h.2]

/-- Cutting at the first separator. -/
theorem cutAt_append (c : Char) (x rest : List Char) (h : c ∉ x) :
    cutAt c (x ++ c :: rest) = (x, rest) := by
  induction x with
  | nil => simp [cutAt]
  | cons a as ih =>
    rw [List.mem_cons, not_or] at h
    have hne : a ≠ c := fun e => h.1 e.symm
    have ih2 := ih h.2
    simp [cutAt, hne] at ih2 ⊢
    exact ih2

/-- Splitting a joined list of fields, none of which holds the separator. -/
theorem splitAt_join (c : Char) (x : List Char) (l : List (List Char)) (hx : c ∉ x)
    (hl : ∀ a ∈ l, c ∉ a) :
    splitAt c (x ++ l.flatMap (fun a => c :: a)) = x :: l := by
  induction l generalizing x with
  | nil => simpa using splitAt_of_not_mem c x hx
  | cons a as ih =>
    rw [List.flatMap_cons, List.cons_append, splitAt_append c x _ hx,
      ih a (hl a (List.mem_cons_self _ _)) (fun b hb => hl b (List.mem_cons_of_mem _ hb))]

/-- The characters of the loop of `String.intercalate`. -/
theorem intercalate_go_data (acc : String) (l : List String) :
    (String.intercalate.go acc "&" l).data
      = acc.data ++ l.flatMap (fun a => '&' :: a.data) := by
  induction l generalizing acc with
  | nil => simp [String.intercalate.go]
  | cons a as ih =>
    rw [String.intercalate.go, ih, String.data_append, String.data_append, List.flatMap_cons]
    simp [List.append_assoc]

/-- Splitting a non-empty `&`-join of fields without `&` gives the fields back. -/
theorem splitAt_intercalate (l : List String) (hne : l ≠ [])
    (hl : ∀ a ∈ l, '&' ∉ a.data) :
    splitAt '&' ("&".intercalate l).data = l.map String.data := by
  cases l with
  | nil => exact absurd rfl hne
  | cons a as =>
    rw [String.intercalate, intercalate_go_data]
    have : as.flatMap (fun b => '&' :: b.data)
        = (as.map String.data).flatMap (fun b => '&' :: b) := by
      rw [List.flatMap_map]
    rw [this, splitAt_join '&' a.data (as.map String.data) (hl a (List.mem_cons_self _ _))]
    · rfl
    · intro b hb
      rw [List.mem_map] at hb
      obtain ⟨b', hb', rfl⟩ := hb
      exact hl b' (List.mem_cons_of_mem _ hb')

/-- The characters of one encoded field. -/
theorem encodeField_data (kv : String × String) :
    (encodeField kv).data = (QueryEscape kv.1).data ++ '=' :: (QueryEscape kv.2).data := by
  unfold encodeField
  rw [String.data_append, String.data_append]
  simp

/-- Splitting a non-empty encoded query at `&` and every field at `=` gives
the escaped keys and values of its pairs, in order. -/
theorem fields_of_encode (v : Values) (hne : v.pairs ≠ []) :
    (splitAt '&' v.Encode.data).map (cutAt '=')
      = v.pairs.map (fun kv => ((QueryEscape kv.1).data, (QueryEscape kv.2).data)) := by
  unfold Values.Encode
  rw [splitAt_intercalate]
  · rw [List.map_map, List.map_map]
    apply List.map_congr_left
    intro kv _
    show cutAt '=' (encodeField kv).data = _
    rw [encodeField_data, cutAt_append]
    intro hmem
    exact (queryEscape_no_delim kv.1 _ hmem).2 rfl
  · simpa using hne
  · intro a ha
    rw [List.mem_map] at ha
    obtain ⟨kv, _, rfl⟩ := ha
    rw [encodeField_data]
    intro hmem
    rcases List.mem_append.mp hmem with h1 | h1
    · exact (queryEscape_no_delim kv.1 _ h1).1 rfl
    · rcases List.mem_cons.mp h1 with h2 | h2
      · exact absurd h2 (by decide)
      · exact (queryEscape_no_delim kv.2 _ h2).1 rfl


/-- The query that a run of `Set` calls encodes to does not depend on the
order of the calls, when the keys set are distinct. -/
theorem set_fold_encode_perm (v : Values) (hv : v.m.keys.Nodup)
    (p₁ p₂ : List (String × String)) (hperm : p₁.Perm p₂)
    (hnd : (p₁.map Prod.fst).Nodup) :
    (p₁.foldl (fun q kv => q.Set kv.1 kv.2) v).Encode
      = (p₂.foldl (fun q kv => q.Set kv.1 kv.2) v).Encode := by
  have hnd₂ : (p₂.map Prod.fst).Nodup := (hperm.map Prod.fst).nodup_iff.mp hnd
  unfold Values.Encode
  rw [pairs_congr]
  · rw [List.perm_ext_iff_of_nodup (set_fold_nodup p₁ v hv) (set_fold_nodup p₂ v hv)]
    intro k
    rw [set_fold_mem_keys, set_fold_mem_keys, (hperm.map Prod.fst).mem_iff]
  · intro k
    by_cases hk : k ∈ p₁.map Prod.fst
    · rw [List.mem_map] at hk
      obtain ⟨kv, hkv, rfl⟩ := hk
      rw [set_fold_get_of_mem p₁ v hnd kv hkv,
        set_fold_get_of_mem p₂ v hnd₂ kv (hperm.mem_iff.mp hkv)]
    · have hk₂ : k ∉ p₂.map Prod.fst := fun h => hk ((hperm.map Prod.fst).mem_iff.mpr h)
      rw [set_fold_get_of_not_mem p₁ v k hk, set_fold_get_of_not_mem p₂ v k hk₂]

/-- C6: for every descriptor with a supplied query-parameter mapping (its
keys distinct) whose request is constructed, whatever query the sub-path
already carries, the raw query of the request sent is the `&`-join of fields
`QueryEscape(key)=QueryEscape(value)` over a list of pairs in which every key
of the mapping occurs in exactly one pair, the one with its mapped value; and
splitting that raw query at `&` and every field at `=`, exactly one field has
the escaped key of a given parameter, and its value is the escaped mapped
value. -/
theorem query_params_each_once (std : GoStd) (c : PortainerClient) (baseURL : String)
    (opts : ProxyRequestOptions) (req0 : Request) (params : List (String × String))
    (hnew : NewRequest std opts.Method baseURL opts.Body = .ok req0)
    (hq : opts.QueryParams = some params) (hnd : (params.map Prod.fst).Nodup) :
    ∃ (req : Request) (pairs : List (String × String)),
      (proxyRequest std c baseURL opts).sent = [req] ∧
      req.URL.RawQuery = "&".intercalate
        (pairs.map (fun kv => QueryEscape kv.1 ++ "=" ++ QueryEscape kv.2)) ∧
      (∀ kv ∈ params, pairs.filter (fun p => decide (p.1 = kv.1)) = [kv]) ∧
      (∀ kv ∈ params,
        ((splitAt '&' req.URL.RawQuery.data).map (cutAt '=')).filter
            (fun f => decide (f.1 = (QueryEscape kv.1).data))
          = [((QueryEscape kv.1).data, (QueryEscape kv.2).data)]) := by
  have hv : (req0.URL.Query std).m.keys.Nodup := parseQuery_nodup std _
  have hone : ∀ kv ∈ params,
      (params.foldl (fun q kv => q.Set kv.1 kv.2) (req0.URL.Query std)).pairs.filter
        (fun p => decide (p.1 = kv.1)) = [kv] := by
    intro kv hkv
    rw [pairs_filter_key _ kv.1 (set_fold_nodup params _ hv)
      ((set_fold_mem_keys params _ kv.1).mpr (Or.inl (List.mem_map_of_mem _ hkv))),
      set_fold_get_of_mem params _ hnd kv hkv]
    rfl
  refine ⟨prepare std c opts req0,
    (params.foldl (fun q kv => q.Set kv.1 kv.2) (req0.URL.Query std)).pairs,
    sent_of_ok std c baseURL opts req0 hnew, ?_, hone, ?_⟩
  · rw [prepare_rawQuery std c opts req0 params hq]
    rfl
  · intro kv hkv
    have hne : (params.foldl (fun q kv => q.Set kv.1 kv.2) (req0.URL.Query std)).pairs ≠ [] := by
      intro h
      have := hone kv hkv
      rw [h] at this
      simp at this
    rw [prepare_rawQuery std c opts req0 params hq]
    show List.filter _ (List.map (cutAt '=')
      (splitAt '&' (params.foldl (fun q kv => q.Set kv.1 kv.2)
        (req0.URL.Query std)).Encode.data)) = _
    rw [fields_of_encode _ hne, List.filter_map]
    have hcongr : List.filter
        ((fun f : List Char × List Char => decide (f.1 = (QueryEscape kv.1).data)) ∘
          (fun kv : String × String => ((QueryEscape kv.1).data, (QueryEscape kv.2).data)))
        (params.foldl (fun q kv => q.Set kv.1 kv.2) (req0.URL.Query std)).pairs
        = List.filter (fun p => decide (p.1 = kv.1))
          (params.foldl (fun q kv => q.Set kv.1 kv.2) (req0.URL.Query std)).pairs := by
      apply List.filter_congr
      intro p _
      simp only [Function.comp, decide_eq_decide]
      constructor
      · intro h
        exact queryEscape_injective _ _ (String.ext h)
      · intro h
        rw [h]
    rw [hcongr, hone kv hkv]
    rfl

/-- C6 at the sub-path `/containers/json?all=0&x=1` with the parameters
`filters=a b` and `all=1`: the raw query sent is `all=1&filters=a+b&x=1`. -/
theorem query_params_each_once_witness :
    (ProxyDockerRequest (answering 200) (NewPortainerClient "h" "secret" []) 5
        ⟨"GET", "/containers/json?all=0&x=1", some [("filters", "a b"), ("all", "1")], none,
          none⟩).sent.map (fun r => r.URL.RawQuery) = ["all=1&filters=a+b&x=1"] ∧
    ∃ (req : Request) (pairs : List (String × String)),
      (proxyRequest (answering 200) (NewPortainerClient "h" "secret" [])
        "https://h/api/endpoints/5/docker/containers/json?all=0&x=1"
        ⟨"GET", "/containers/json?all=0&x=1", some [("filters", "a b"), ("all", "1")], none,
          none⟩).sent = [req] ∧
      req.URL.RawQuery = "&".intercalate
        (pairs.map (fun kv => QueryEscape kv.1 ++ "=" ++ QueryEscape kv.2)) ∧
      (∀ kv ∈ [("filters", "a b"), ("all", "1")],
        pairs.filter (fun p => decide (p.1 = kv.1)) = [kv]) ∧
      (∀ kv ∈ [("filters", "a b"), ("all", "1")],
        ((splitAt '&' req.URL.RawQuery.data).map (cutAt '=')).filter
            (fun f => decide (f.1 = (QueryEscape kv.1).data))
          = [((QueryEscape kv.1).data, (QueryEscape kv.2).data)]) :=
  ⟨by decide,
    query_params_each_once (answering 200) (NewPortainerClient "h" "secret" [])
      "https://h/api/endpoints/5/docker/containers/json?all=0&x=1"
      ⟨"GET", "/containers/json?all=0&x=1", some [("filters", "a b"), ("all", "1")], none, none⟩
      { Method := "GET"
        URL := { Scheme := "https", Opaque := "", User := "", Host := "h",
                 Path := "/api/endpoints/5/docker/containers/json", RawPath := "",
                 ForceQuery := false, RawQuery := "all=0&x=1", Fragment := "",
                 RawFragment := "" }
        Header := ⟨[]⟩, Body := none, Host := "h" }
      [("filters", "a b"), ("all", "1")] rfl rfl (by decide)⟩

/-- C10: two descriptors that differ only in the order in which the same
query-parameter mapping (its keys distinct) is visited give the same outcome,
so the same request and URL, through `proxyRequest`, `ProxyDockerRequest` and
`ProxyKubernetesRequest`; and the raw query of every request sent lists its
pairs, the supplied ones among them, sorted by key. -/
theorem query_order_independent (std : GoStd) (c : PortainerClient) (baseURL : String)
    (n : Int) (opts : ProxyRequestOptions) (p₁ p₂ : List (String × String))
    (hperm : p₁.Perm p₂) (hnd : (p₁.map Prod.fst).Nodup) :
    proxyRequest std c baseURL { opts with QueryParams := some p₁ }
      = proxyRequest std c baseURL { opts with QueryParams := some p₂ } ∧
    ProxyDockerRequest std c n { opts with QueryParams := some p₁ }
      = ProxyDockerRequest std c n { opts with QueryParams := some p₂ } ∧
    ProxyKubernetesRequest std c n { opts with QueryParams := some p₁ }
      = ProxyKubernetesRequest std c n { opts with QueryParams := some p₂ } ∧
    ∀ req ∈ (proxyRequest std c baseURL { opts with QueryParams := some p₁ }).sent,
      ∃ pairs : List (String × String), req.URL.RawQuery = "&".intercalate
          (pairs.map (fun kv => QueryEscape kv.1 ++ "=" ++ QueryEscape kv.2)) ∧
        (pairs.map Prod.fst).Sorted KeyLE ∧ ∀ kv ∈ p₁, kv ∈ pairs := by
  have hprep : ∀ req0 : Request,
      prepare std c { opts with QueryParams := some p₁ } req0
        = prepare std c { opts with QueryParams := some p₂ } req0 := by
    intro req0
    simp only [prepare]
    rw [set_fold_encode_perm (req0.URL.Query std) (parseQuery_nodup std _) p₁ p₂ hperm hnd]
  have hall : ∀ url : String,
      proxyRequest std c url { opts with QueryParams := some p₁ }
        = proxyRequest std c url { opts with QueryParams := some p₂ } := by
    intro url
    simp only [proxyRequest, hprep]
  refine ⟨hall baseURL, hall _, hall _, ?_⟩
  intro req hreq
  cases hn : NewRequest std opts.Method baseURL opts.Body with
  | error cause =>
    simp [proxyRequest, hn] at hreq
  | ok req0 =>
    rw [sent_of_ok std c baseURL { opts with QueryParams := some p₁ } req0 hn,
      List.mem_singleton] at hreq
    subst hreq
    refine ⟨(p₁.foldl (fun q kv => q.Set kv.1 kv.2) (req0.URL.Query std)).pairs, ?_,
      pairs_sorted _, ?_⟩
    · rw [prepare_rawQuery std c _ req0 p₁ rfl]
      rfl
    · intro kv hkv
      have hv : (req0.URL.Query std).m.keys.Nodup := parseQuery_nodup std _
      have hf := pairs_filter_key
        (p₁.foldl (fun q kv => q.Set kv.1 kv.2) (req0.URL.Query std)) kv.1
        (set_fold_nodup p₁ _ hv)
        ((set_fold_mem_keys p₁ _ kv.1).mpr (Or.inl (List.mem_map_of_mem _ hkv)))
      rw [set_fold_get_of_mem p₁ _ hnd kv hkv] at hf
      have hmem : kv ∈ List.filter (fun p => decide (p.1 = kv.1))
          (p₁.foldl (fun q kv => q.Set kv.1 kv.2) (req0.URL.Query std)).pairs := by
        rw [hf]; simp
      exact (List.mem_filter.mp hmem).1

/-- C10 at the mapping `b=2, a=1` visited in its two orders. -/
theorem query_order_independent_witness :
    (ProxyDockerRequest (answering 200) (NewPortainerClient "h" "secret" []) 5
        ⟨"GET", "/containers/json", some [("b", "2"), ("a", "1")], none, none⟩).sent.map
      (fun r => r.URL.RawQuery) = ["a=1&b=2"] ∧
    ProxyDockerRequest (answering 200) (NewPortainerClient "h" "secret" []) 5
        ⟨"GET", "/containers/json", some [("b", "2"), ("a", "1")], none, none⟩
      = ProxyDockerRequest (answering 200) (NewPortainerClient "h" "secret" []) 5
        ⟨"GET", "/containers/json", some [("a", "1"), ("b", "2")], none, none⟩ :=
  ⟨by decide,
    (query_order_independent (answering 200) (NewPortainerClient "h" "secret" []) "" 5
      ⟨"GET", "/containers/json", none, none, none⟩ [("b", "2"), ("a", "1")]
      [("a", "1"), ("b", "2")] (List.Perm.swap _ _ _) (by decide)).2.1⟩

end Portainer
